import Mathlib

/-!
Verification of the earendil daemon core against its specification.

Each definition is a shallow embedding of a function or data structure of the
repository, translated from the Rust source.  External crates
(earendil_crypt, earendil_packet, earendil_topology, sosistab2, moka, lru,
smol channels, nanorpc) appear as opaque parameters or as small state models
of the contract the core relies on.  Machine integers are modelled as Nat;
fallible Rust code returns Option or Except.
-/

/-- 20-byte identifier of a long-term identity public key, totally ordered.
Only its order and equality are used by the core. -/
abbrev Fingerprint := Nat

/-- Opaque signature bytes. -/
abbrev Sig := Nat

/-- Opaque serialized JSON-RPC request. -/
abbrev JrpcRequest := Nat

/-- Opaque deserialized JSON-RPC response. -/
abbrev JrpcResponse := Nat

/-- An Endpoint is a (Fingerprint, Dock) pair; Dock is a u32 demultiplexor. -/
abbrev Endpoint := Fingerprint × Nat

/-- The last n elements of a list (drop everything before them). -/
def takeLast (n : Nat) (l : List α) : List α := l.drop (l.length - n)

/-! ## Reply-block store (src/daemon/reply_block_store.rs) -/

/-- ReplyBlockDeque: a VecDeque of reply blocks plus its fixed capacity.
The element type is abstract, mirroring the opaque ReplyBlock tokens. -/
structure ReplyBlockDeque (α : Type) where
  deque : List α
  capacity : Nat
deriving DecidableEq

/-- ReplyBlockDeque::new(capacity): empty deque with the given capacity. -/
def ReplyBlockDeque.new (capacity : Nat) : ReplyBlockDeque α :=
  { deque := [], capacity := capacity }

/-- ReplyBlockDeque::insert: if the deque is at capacity, pop the front
(oldest) element, then push the new element at the back. -/
def ReplyBlockDeque.insert (d : ReplyBlockDeque α) (item : α) : ReplyBlockDeque α :=
  let q := if d.deque.length = d.capacity then d.deque.tail else d.deque
  { d with deque := q ++ [item] }

/-- ReplyBlockDeque::pop: pop from the back (most recently inserted). -/
def ReplyBlockDeque.pop (d : ReplyBlockDeque α) : Option α × ReplyBlockDeque α :=
  match d.deque.getLast? with
  | some x => (some x, { d with deque := d.deque.dropLast })
  | none => (none, d)

/-- Sequential insertion of a list of items into a deque. -/
def ReplyBlockDeque.insertMany (d : ReplyBlockDeque α) (items : List α) : ReplyBlockDeque α :=
  items.foldl (fun d x => d.insert x) d

/-- n successive pops from a deque, collecting the results in order. -/
def ReplyBlockDeque.popN : ReplyBlockDeque α → Nat → List (Option α) × ReplyBlockDeque α
  | d, 0 => ([], d)
  | d, n + 1 =>
    let r := d.pop
    let rest := r.2.popN n
    (r.1 :: rest.1, rest.2)

/-- ReplyBlockStore: an LruCache from Fingerprint to ReplyBlockDeque, bounded
by a caller-specified capacity.  The entry list is kept most-recently-used
first; put and get both promote the touched key to the front. -/
structure ReplyBlockStore (α : Type) where
  items : List (Fingerprint × ReplyBlockDeque α)
  cap : Nat
deriving DecidableEq

/-- Lookup in the LRU entry list (no promotion; models a read of the map). -/
def lruLookup (items : List (Fingerprint × β)) (fp : Fingerprint) : Option β :=
  (items.find? (fun p => decide (p.1 = fp))).map (·.2)

/-- ReplyBlockStore::new(size). -/
def ReplyBlockStore.new (size : Nat) : ReplyBlockStore α := { items := [], cap := size }

/-- ReplyBlockStore::insert: get_mut on the fingerprint (promoting it) and
insert into its deque; if absent, create a deque of capacity 1000, insert,
and put it into the LRU (evicting the least-recently-used entry if full). -/
def ReplyBlockStore.insert (s : ReplyBlockStore α) (fp : Fingerprint) (rb : α) :
    ReplyBlockStore α :=
  match lruLookup s.items fp with
  | some d =>
    { s with items := (fp, d.insert rb) :: s.items.eraseP (fun p => decide (p.1 = fp)) }
  | none =>
    let d := (ReplyBlockDeque.new 1000).insert rb
    let base := if s.items.length = s.cap then s.items.dropLast else s.items
    { s with items := (fp, d) :: base }

/-- ReplyBlockStore::insert_batch: sequential insert. -/
def ReplyBlockStore.insertList (s : ReplyBlockStore α) (fp : Fingerprint) (items : List α) :
    ReplyBlockStore α :=
  items.foldl (fun s x => s.insert fp x) s

/-- ReplyBlockStore::get: get_mut on the fingerprint (promoting it) and pop
from the back of its deque; None when the fingerprint is absent. -/
def ReplyBlockStore.get (s : ReplyBlockStore α) (fp : Fingerprint) :
    Option α × ReplyBlockStore α :=
  match lruLookup s.items fp with
  | some d =>
    let r := d.pop
    (r.1, { s with items := (fp, r.2) :: s.items.eraseP (fun p => decide (p.1 = fp)) })
  | none => (none, s)

/-- n successive get calls on the same fingerprint. -/
def ReplyBlockStore.getN : ReplyBlockStore α → Fingerprint → Nat → List (Option α) × ReplyBlockStore α
  | s, _, 0 => ([], s)
  | s, fp, n + 1 =>
    let r := s.get fp
    let rest := r.2.getN fp n
    (r.1 :: rest.1, rest.2)

/-- The deque contents stored for a fingerprint, if any. -/
def ReplyBlockStore.lookupDeque (s : ReplyBlockStore α) (fp : Fingerprint) : Option (List α) :=
  (lruLookup s.items fp).map ReplyBlockDeque.deque

/-- Store well-formedness: every resident deque was created by the store with
capacity 1000 and never exceeds it. -/
def ReplyBlockStore.WF (s : ReplyBlockStore α) : Prop :=
  ∀ p ∈ s.items, p.2.capacity = 1000 ∧ p.2.deque.length ≤ 1000

/-! ## Multiplex-backed RPC transport (src/daemon/link_connection.rs) -/

/-- A pooled substream connection; the (BufReader, Stream) pair is identified
by the id of the underlying substream. -/
abbrev ConnId := Nat

/-- POOL_TIMEOUT = 60 seconds. -/
def poolTimeout : Nat := 60

/-- The multiplex, as far as the transport uses it: open_conn yields a fresh
substream. -/
structure MuxState where
  nextConn : ConnId
deriving DecidableEq

/-- A failure during the request/response exchange of call_raw: an I/O error
on write or read, or a serde_json failure. -/
inductive RpcError where
  | ioError
  | parseError
deriving DecidableEq

/-- MultiplexRpcTransport::get_conn: pop pool entries (FIFO) until one is
younger than POOL_TIMEOUT, else open a fresh "n2n_control" substream.
Returns the acquired connection, the remaining pool, and the mux state. -/
def getConn (now : Nat) : List (ConnId × Nat) → MuxState → ConnId × List (ConnId × Nat) × MuxState
  | [], m => (m.nextConn, [], { nextConn := m.nextConn + 1 })
  | (c, t) :: rest, m =>
    if now - t < poolTimeout then (c, rest, m) else getConn now rest m

/-- MultiplexRpcTransport::call_raw.  The scopeguard installed around the
acquired connection pushes it back into the pool, tagged with the current
instant, when the guard is dropped; this happens at scope exit on every
path, the early error returns included.  The write/read/parse exchange is
an oracle from the connection and request to a result. -/
def callRaw (exchange : ConnId → JrpcRequest → Except RpcError JrpcResponse)
    (req : JrpcRequest) (now : Nat) (pool : List (ConnId × Nat)) (mux : MuxState) :
    Except RpcError JrpcResponse × List (ConnId × Nat) × MuxState :=
  let acq := getConn now pool mux
  (exchange acq.1 req, acq.2.1 ++ [(acq.1, now)], acq.2.2)

/-! ## Onion packet pump (src/daemon/link_connection.rs, handle_onion_packets) -/

/-- A bounded smol channel, as seen by try_send: a queue plus its capacity. -/
structure BoundedChannel (α : Type) where
  queue : List α
  capacity : Nat
deriving DecidableEq

/-- Outcome of Sender::try_send on a bounded channel. -/
inductive TrySendOutcome (α : Type) where
  | sent (chan : BoundedChannel α)
  | full
deriving DecidableEq

/-- try_send: enqueue if below capacity, otherwise fail with Full. -/
def BoundedChannel.trySendMsg (c : BoundedChannel α) (x : α) : TrySendOutcome α :=
  if c.queue.length < c.capacity then .sent { c with queue := c.queue ++ [x] } else .full

/-- A raw packet image: the bytes of one unreliable datagram. -/
abbrev PacketBytes := List Nat

/-- bytemuck::try_from_bytes for RawPacket: succeeds exactly when the byte
image has the raw-packet size (a constant of the opaque packet crate,
passed as a parameter). -/
def tryFromBytes (pktSize : Nat) (b : PacketBytes) : Option PacketBytes :=
  if b.length = pktSize then some b else none

/-- Why one iteration of the down direction of handle_onion_packets ends with
an error: the datagram is not a raw packet, or try_send on the incoming
channel failed and the question-mark operator propagated the failure. -/
inductive PumpError where
  | wrongSize
  | channelFull
deriving DecidableEq

/-- One iteration of the down direction of handle_onion_packets: receive one
unreliable datagram, parse it as a RawPacket, and try_send it into the
bounded incoming channel, propagating a try_send failure. -/
def dnStep (pktSize : Nat) (incoming : BoundedChannel PacketBytes) (datagram : PacketBytes) :
    Except PumpError (BoundedChannel PacketBytes) :=
  match tryFromBytes pktSize datagram with
  | none => .error .wrongSize
  | some pkt =>
    match incoming.trySendMsg pkt with
    | .sent c => .ok c
    | .full => .error .channelFull

/-! ## N2R-backed RPC transport (src/global_rpc/transport.rs) -/

/-- The timer raced against the receive on an attempt:
Duration::from_secs(2u64.pow(retries + 1)). -/
def timeoutSecs (retries : Nat) : Nat := 2 ^ (retries + 1)

/-- The loop state of GlobalRpcTransport::call_raw: the ephemeral n2r socket
bound once before the loop, the retry counter, and the log of sends (which
socket each (re)send used). -/
structure GlobalRpcCall where
  socket : Nat
  retries : Nat
  sendLog : List Nat
deriving DecidableEq

/-- State at the first race: the request has been sent once, retries = 0. -/
def globalRpcStart (skt : Nat) : GlobalRpcCall :=
  { socket := skt, retries := 0, sendLog := [skt] }

/-- Effect of one timer expiry: increment retries and resend the request on
the same socket.  Defined for every state: the loop has no retry bound. -/
def globalRpcOnTimeout (s : GlobalRpcCall) : GlobalRpcCall :=
  { s with retries := s.retries + 1, sendLog := s.sendLog ++ [s.socket] }

/-- The loop state after n consecutive timer expiries. -/
def globalRpcAfterTimeouts (skt : Nat) : Nat → GlobalRpcCall
  | 0 => globalRpcStart skt
  | n + 1 => globalRpcOnTimeout (globalRpcAfterTimeouts skt n)

/-! ## Link protocol service (src/daemon/link_connection.rs, LinkProtocolImpl) -/

/-- AdjacencyDescriptor: the two endpoints (invariant left < right is checked
by sign_adjacency, not by construction) and the two signatures. -/
structure AdjacencyDescriptor where
  left : Fingerprint
  right : Fingerprint
  left_sig : Sig
  right_sig : Sig
deriving DecidableEq

/-- IdentityDescriptor, of which the service reads only is_relay. -/
structure IdentityDescriptor where
  fingerprint : Fingerprint
  is_relay : Bool
deriving DecidableEq

/-- The read side of the relay graph used by the adjacencies query:
adjacencies(fp) yields the edges incident to a known fingerprint, and
identity(fp) the identity descriptor, both opaque to this core. -/
structure RelayGraphM where
  adjacenciesOf : Fingerprint → Option (List AdjacencyDescriptor)
  identityOf : Fingerprint → Option IdentityDescriptor

/-- itertools dedup: remove elements that equal their immediate predecessor
(only runs of consecutive identical elements collapse). -/
def itertoolsDedup [DecidableEq α] : List α → List α
  | [] => []
  | [x] => [x]
  | x :: y :: rest =>
    if x = y then itertoolsDedup (y :: rest) else x :: itertoolsDedup (y :: rest)

/-- The relay-to-relay filter of the adjacencies query:
rg.identity(left).map_or(false, is_relay) and the same on the right. -/
def relayRelay (rg : RelayGraphM) (adj : AdjacencyDescriptor) : Bool :=
  ((rg.identityOf adj.left).map IdentityDescriptor.is_relay).getD false
    && ((rg.identityOf adj.right).map IdentityDescriptor.is_relay).getD false

/-- LinkProtocolImpl::adjacencies: flat_map the requested fingerprints to
their incident edges, keep relay-to-relay edges, then itertools dedup. -/
def adjacencies (rg : RelayGraphM) (fps : List Fingerprint) : List AdjacencyDescriptor :=
  itertoolsDedup
    (fps.flatMap fun fp => ((rg.adjacenciesOf fp).getD []).filter (relayRelay rg))

/-- The context sign_adjacency reads: the global identity fingerprint, the
neighbor table keys, the signing primitive (global identity signature over
incomplete.to_sign(), both opaque), and the outcome of the external
relay-graph insert_adjacency (none models an Err return). -/
structure SignCtx where
  myFingerprint : Fingerprint
  neighbors : List Fingerprint
  signAdj : AdjacencyDescriptor → Sig
  insertAdjacency : AdjacencyDescriptor → Option Unit

/-- The three validity checks of sign_adjacency. -/
abbrev adjacencyChecks (ctx : SignCtx) (inc : AdjacencyDescriptor) : Prop :=
  inc.left < inc.right ∧ inc.right = ctx.myFingerprint ∧ inc.left ∈ ctx.neighbors

/-- LinkProtocolImpl::sign_adjacency: refuse unless left < right, right is our
own fingerprint, and left is a known neighbor; then fill in right_sig and
insert into the relay graph, returning None if the insert fails. -/
def signAdjacency (ctx : SignCtx) (inc : AdjacencyDescriptor) : Option AdjacencyDescriptor :=
  if adjacencyChecks ctx inc then
    match ctx.insertAdjacency { inc with right_sig := ctx.signAdj inc } with
    | some _ => some { inc with right_sig := ctx.signAdj inc }
    | none => none
  else none

/-! ## Haven socket (src/socket/haven_socket.rs) -/

/-- An opaque CryptSession value (identified by an id; the crypto inside is
outside this core). -/
abbrev CryptSession := Nat

/-- HavenMsg, the inner wire enum of the haven framing. -/
inductive HavenMsg where
  | clientHs (hs : Nat)
  | serverHs (hs : Nat)
  | regular (nonce : Nat) (inner : Nat)
deriving DecidableEq

/-- The moka session cache keyed by remote Endpoint, as an entry list. -/
abbrev SessionCache := List (Endpoint × CryptSession)

/-- moka Cache::get. -/
def cacheGet (c : SessionCache) (k : Endpoint) : Option CryptSession :=
  (c.find? (fun p => decide (p.1 = k))).map (·.2)

/-- moka Cache::insert: associates the key with the new value, replacing any
previous value for that key. -/
def cacheInsert (c : SessionCache) (k : Endpoint) (v : CryptSession) : SessionCache :=
  (k, v) :: c.filter (fun p => decide (p.1 ≠ k))

/-- Observable effect of one recv_task dispatch besides the cache update. -/
inductive RecvEffect where
  | sessionCreated (remote : Endpoint) (s : CryptSession)
  | forwarded (remote : Endpoint) (msg : HavenMsg)
deriving DecidableEq

/-- One dispatch of the haven recv_task after decoding (body, remote) and the
HavenMsg: ClientHs unconditionally builds a fresh CryptSession (seeded with
the handshake and remote fingerprint; mkSession is the outcome oracle of
the fallible constructor) and inserts it for remote; ServerHs and Regular
are forwarded into the existing session, or the task bails on a stray
message.  An error return makes the immortal wrapper respawn the task. -/
def recvStep (mkSession : Endpoint → Nat → Option CryptSession)
    (cache : SessionCache) (remote : Endpoint) (msg : HavenMsg) :
    Except String (SessionCache × RecvEffect) :=
  let encrypter := cacheGet cache remote
  match msg with
  | .serverHs _ =>
    match encrypter with
    | some _ => .ok (cache, .forwarded remote msg)
    | none => .error "stray msg; dropping"
  | .clientHs hs =>
    match mkSession remote hs with
    | some s => .ok (cacheInsert cache remote s, .sessionCreated remote s)
    | none => .error "could not create crypt session"
  | .regular _ _ =>
    match encrypter with
    | some _ => .ok (cache, .forwarded remote msg)
    | none => .error "stray msg; dropping"

/-- A smol bounded channel as the receiving side sees it: the buffered
messages, the capacity, and the number of live Sender clones. -/
structure RecvChannel (α : Type) where
  queue : List α
  capacity : Nat
  senders : Nat
deriving DecidableEq

/-- Outcome of Receiver::recv().await: a message, suspension (empty queue but
a sender alive), or the closed error (empty queue and no senders left). -/
inductive RecvResult (α : Type) where
  | msg (a : α) (rest : RecvChannel α)
  | pending
  | closed
deriving DecidableEq

/-- Receiver::recv on a bounded channel. -/
def RecvChannel.recv (c : RecvChannel α) : RecvResult α :=
  match c.queue with
  | x :: rest => .msg x { c with queue := rest }
  | [] => if c.senders = 0 then .closed else .pending

/-- The HavenSocket state that recv_from touches: the decrypted-message
channel.  The senders count includes the send_incoming_decrypted field held
by the socket struct itself and the clone inside the immortal recv task. -/
structure HavenSocketM where
  recvIncomingDecrypted : RecvChannel (Nat × Endpoint)
deriving DecidableEq

/-- HavenSocket::bind, restricted to the decrypted-message channel: a bounded
channel of capacity 1000 whose sending half is held twice, by the socket
struct and by the spawned recv task. -/
def HavenSocketM.bind : HavenSocketM :=
  { recvIncomingDecrypted := { queue := [], capacity := 1000, senders := 2 } }

/-- The socket is live: at least one sending half of its channel exists (the
struct field send_incoming_decrypted guarantees this while the socket is
not dropped). -/
def HavenSocketM.alive (s : HavenSocketM) : Prop :=
  1 ≤ s.recvIncomingDecrypted.senders

/-- Outcome of HavenSocket::recv_from: the Ok value, suspension, or the panic
of the expect on a closed channel. -/
inductive RecvFromResult where
  | ok (msg : Nat × Endpoint) (s : HavenSocketM)
  | pending (s : HavenSocketM)
  | panicked

/-- HavenSocket::recv_from: recv on the decrypted-message channel, wrapping
the message in Ok; the expect turns a closed channel into a panic. -/
def HavenSocketM.recvFrom (s : HavenSocketM) : RecvFromResult :=
  match s.recvIncomingDecrypted.recv with
  | .msg m c => .ok m { recvIncomingDecrypted := c }
  | .pending => .pending s
  | .closed => .panicked

/-- A decrypted message delivered by the recv task (Sender::send): enqueued
when there is room; the senders are untouched. -/
def HavenSocketM.deliver (s : HavenSocketM) (m : Nat × Endpoint) : HavenSocketM :=
  let c := s.recvIncomingDecrypted
  if c.queue.length < c.capacity then
    { recvIncomingDecrypted := { c with queue := c.queue ++ [m] } }
  else s

/-- Cloning the sending half (as CryptSession::new does). -/
def HavenSocketM.cloneSender (s : HavenSocketM) : HavenSocketM :=
  let c := s.recvIncomingDecrypted
  { recvIncomingDecrypted := { c with senders := c.senders + 1 } }

/-- Dropping one of the extra sender clones (a CryptSession being evicted);
the clone being dropped is not the one held by the socket struct. -/
def HavenSocketM.dropExtraSender (s : HavenSocketM) : HavenSocketM :=
  let c := s.recvIncomingDecrypted
  { recvIncomingDecrypted := { c with senders := c.senders - 1 } }

/-! ## Control protocol (src/daemon/control_protocol_impl.rs) -/

/-- An identity secret (opaque signing key bytes). -/
abbrev IdentitySecret := Nat

/-- A bound Socket as stored in the control protocol map: which factory made
it, and with which identity, dock and rendezvous point it was bound. -/
structure SocketM where
  isHaven : Bool
  identity : IdentitySecret
  dock : Option Nat
  rendezvous : Option Fingerprint
deriving DecidableEq

/-- The ControlProtocolImpl state: the DashMap of bound sockets keyed by
caller-supplied socket ids, and the AnonIdentities cache. -/
structure ControlState where
  sockets : List (String × SocketM)
  anonIdentities : List (String × IdentitySecret)
deriving DecidableEq

/-- AnonIdentities::get: return the cached identity for the label, or derive
it (IdentitySecret::from_bytes of the BLAKE3 hash of the label, an opaque
pure derivation passed as a parameter) and cache it. -/
def anonIdentitiesGet (derive : String → IdentitySecret)
    (cache : List (String × IdentitySecret)) (label : String) :
    IdentitySecret × List (String × IdentitySecret) :=
  match cache.find? (fun p => decide (p.1 = label)) with
  | some p => (p.2, cache)
  | none => (derive label, (label, derive label) :: cache)

/-- The anon-identity cache only memoizes the pure derivation. -/
def anonCacheWF (derive : String → IdentitySecret)
    (cache : List (String × IdentitySecret)) : Prop :=
  ∀ p ∈ cache, p.2 = derive p.1

/-- DashMap::insert on the socket map: silently replaces any socket already
stored under the id. -/
def socketsInsert (m : List (String × SocketM)) (k : String) (v : SocketM) :
    List (String × SocketM) :=
  (k, v) :: m.filter (fun p => decide (p.1 ≠ k))

/-- DashMap::get on the socket map. -/
def socketsGet (m : List (String × SocketM)) (k : String) : Option SocketM :=
  (m.find? (fun p => decide (p.1 = k))).map (·.2)

/-- ControlProtocolImpl::bind_n2r: resolve the identity (the label-derived
anonymous identity when anon_id is supplied, else the global identity),
bind an n2r socket with it, and store it under socket_id. -/
def bindN2r (derive : String → IdentitySecret) (globalId : IdentitySecret)
    (st : ControlState) (socketId : String) (anonId : Option String) (dock : Option Nat) :
    ControlState :=
  let r := match anonId with
    | some label => anonIdentitiesGet derive st.anonIdentities label
    | none => (globalId, st.anonIdentities)
  let socket : SocketM := { isHaven := false, identity := r.1, dock := dock, rendezvous := none }
  { sockets := socketsInsert st.sockets socketId socket, anonIdentities := r.2 }

/-- ControlProtocolImpl::bind_haven: same identity resolution, then a haven
socket bound with the optional rendezvous point, stored under socket_id. -/
def bindHaven (derive : String → IdentitySecret) (globalId : IdentitySecret)
    (st : ControlState) (socketId : String) (anonId : Option String) (dock : Option Nat)
    (rendezvousPoint : Option Fingerprint) : ControlState :=
  let r := match anonId with
    | some label => anonIdentitiesGet derive st.anonIdentities label
    | none => (globalId, st.anonIdentities)
  let socket : SocketM :=
    { isHaven := true, identity := r.1, dock := dock, rendezvous := rendezvousPoint }
  { sockets := socketsInsert st.sockets socketId socket, anonIdentities := r.2 }

/-! ## Concrete instances used by counterexamples and witnesses -/

/-- A relay-to-relay edge between fingerprints 1 and 2. -/
def adjEx1 : AdjacencyDescriptor := { left := 1, right := 2, left_sig := 0, right_sig := 0 }

/-- A relay-to-relay edge between fingerprints 3 and 4. -/
def adjEx2 : AdjacencyDescriptor := { left := 3, right := 4, left_sig := 0, right_sig := 0 }

/-- A relay graph with the two edges above, every fingerprint up to 4 being a
relay; both endpoints of each edge report the edge as incident. -/
def rgEx : RelayGraphM where
  adjacenciesOf := fun fp =>
    if fp = 1 then some [adjEx1]
    else if fp = 2 then some [adjEx1]
    else if fp = 3 then some [adjEx2]
    else if fp = 4 then some [adjEx2]
    else none
  identityOf := fun fp =>
    if fp ≤ 4 then some { fingerprint := fp, is_relay := true } else none

/-- A signing context for witnesses: we are fingerprint 2, fingerprint 1 is a
neighbor, signatures are the constant 9, graph inserts succeed. -/
def signCtxEx : SignCtx where
  myFingerprint := 2
  neighbors := [1]
  signAdj := fun _ => 9
  insertAdjacency := fun _ => some ()

/-! ## Theorems -/

/-- The sender side of the recv outcome is preserved: a delivered message
leaves the senders count of the channel unchanged. -/
theorem RecvChannel.recv_msg_senders {c : RecvChannel α} {a : α} {rest : RecvChannel α}
    (h : c.recv = RecvResult.msg a rest) : rest.senders = c.senders := by
  obtain ⟨q, cap, snd⟩ := c
  cases q with
  | nil =>
    by_cases hs : snd = 0
    · simp [RecvChannel.recv, hs] at h
    · simp [RecvChannel.recv, hs] at h
  | cons x t =>
    simp only [RecvChannel.recv, RecvResult.msg.injEq] at h
    rw [← h.2]

/-- C1 counterexample: with an exchange that fails, call_raw on an empty pool
still pushes the freshly opened connection (id 0, tagged with the current
instant 0) back into the pool while propagating the error, contradicting
the claim that a failed exchange drops the connection. -/
theorem callRaw_failure_still_pools_counterexample :
    (callRaw (fun _ _ => Except.error RpcError.ioError) 0 0 [] { nextConn := 0 }).1
        = Except.error RpcError.ioError
    ∧ (0, 0) ∈ (callRaw (fun _ _ => Except.error RpcError.ioError) 0 0 [] { nextConn := 0 }).2.1 :=
  ⟨rfl, by decide⟩

/-- C1 (amended): call_raw propagates the outcome of the exchange (errors
included) to the caller, and the scope guard returns the acquired
connection to the pool, tagged with the current instant, on every path:
after success and after an I/O or parse failure alike. -/
theorem callRaw_pools_connection_on_every_path
    (exchange : ConnId → JrpcRequest → Except RpcError JrpcResponse)
    (req now : Nat) (pool : List (ConnId × Nat)) (mux : MuxState) :
    (callRaw exchange req now pool mux).1 = exchange (getConn now pool mux).1 req ∧
    ((getConn now pool mux).1, now) ∈ (callRaw exchange req now pool mux).2.1 := by
  refine ⟨rfl, ?_⟩
  simp only [callRaw]
  exact List.mem_append_right _ (List.mem_singleton.mpr rfl)

/-- C4 counterexample: a correctly sized datagram arriving while the incoming
channel is full makes the down direction of the packet pump return an
error (the try_send failure propagates through the question mark), rather
than silently dropping the packet and continuing. -/
theorem dnStep_full_channel_counterexample :
    dnStep 2 { queue := [[0, 0]], capacity := 1 } [1, 1] = Except.error PumpError.channelFull
    ∧ dnStep 2 { queue := [[0, 0]], capacity := 1 } [1, 1]
        ≠ Except.ok { queue := [[0, 0]], capacity := 1 } :=
  ⟨rfl, fun h => nomatch h⟩

/-- C4 (amended): in the down direction, a datagram of the correct raw-packet
size that meets a full incoming channel makes that pump run terminate with
the propagated try-send error (the packet is lost and the channel is left
unchanged); the enclosing respawning loops restart the pump. -/
theorem dnStep_full_channel_errors (pktSize : Nat) (c : BoundedChannel PacketBytes)
    (d : PacketBytes) (hsize : d.length = pktSize) (hfull : c.capacity ≤ c.queue.length) :
    dnStep pktSize c d = Except.error PumpError.channelFull := by
  have hnot : ¬ (c.queue.length < c.capacity) := by omega
  unfold dnStep tryFromBytes BoundedChannel.trySendMsg
  rw [if_pos hsize]
  simp only [if_neg hnot]

/-- C4 witness: the amended theorem applied at a concrete full channel. -/
theorem dnStep_full_channel_errors_witness :
    ([1, 1] : PacketBytes).length = 2
    ∧ (1 : Nat) ≤ ([[0, 0]] : List PacketBytes).length
    ∧ dnStep 2 { queue := [[0, 0]], capacity := 1 } [1, 1]
        = Except.error PumpError.channelFull :=
  ⟨by decide, by decide,
    dnStep_full_channel_errors 2 { queue := [[0, 0]], capacity := 1 } [1, 1]
      (by decide) (by decide)⟩

/-- C6 counterexample: the claimed retry deadlines 4, 8, 16, 32 seconds do not
match the coded timer of 2^(retries+1) seconds, which starts at 2 seconds. -/
theorem globalRpcTimeouts_counterexample :
    ¬ (timeoutSecs 0 = 4 ∧ timeoutSecs 1 = 8 ∧ timeoutSecs 2 = 16 ∧ timeoutSecs 3 = 32) := by
  decide

/-- C6 (amended): the timer raced on the n-th attempt is 2^(n+1) seconds, so
the consecutive deadlines are 2, 4, 8, 16 seconds from their respective
sends; every expiry increments retries and resends on the same ephemeral
socket, with no retry bound (the state is defined after any number of
timeouts). -/
theorem globalRpc_retry_schedule (skt n : Nat) :
    timeoutSecs n = 2 ^ (n + 1)
    ∧ (timeoutSecs 0 = 2 ∧ timeoutSecs 1 = 4 ∧ timeoutSecs 2 = 8 ∧ timeoutSecs 3 = 16)
    ∧ (globalRpcAfterTimeouts skt n).socket = skt
    ∧ (globalRpcAfterTimeouts skt n).retries = n
    ∧ (globalRpcAfterTimeouts skt n).sendLog = List.replicate (n + 1) skt := by
  refine ⟨rfl, ⟨rfl, rfl, rfl, rfl⟩, ?_⟩
  induction n with
  | zero => exact ⟨rfl, rfl, rfl⟩
  | succ k ih =>
    obtain ⟨h1, h2, h3⟩ := ih
    refine ⟨?_, ?_, ?_⟩
    · simpa [globalRpcAfterTimeouts, globalRpcOnTimeout] using h1
    · simp [globalRpcAfterTimeouts, globalRpcOnTimeout, h2]
    · simp only [globalRpcAfterTimeouts, globalRpcOnTimeout, h1, h3]
      rw [← List.replicate_succ']

/-- Unfolding equation for itertools dedup on two or more elements. -/
theorem itertoolsDedup_cons_eq_ite [DecidableEq α] (x y : α) (rest : List α) :
    itertoolsDedup (x :: y :: rest)
      = if x = y then itertoolsDedup (y :: rest) else x :: itertoolsDedup (y :: rest) := rfl

/-- itertools dedup keeps the head of a nonempty list. -/
theorem itertoolsDedup_head_cons [DecidableEq α] (y : α) (l : List α) :
    ∃ t, itertoolsDedup (y :: l) = y :: t := by
  induction l generalizing y with
  | nil => exact ⟨[], rfl⟩
  | cons z rest ih =>
    rw [itertoolsDedup_cons_eq_ite]
    by_cases h : y = z
    · obtain ⟨t, ht⟩ := ih z
      subst h
      exact ⟨t, by rw [if_pos rfl, ht]⟩
    · exact ⟨itertoolsDedup (z :: rest), by rw [if_neg h]⟩

/-- itertools dedup leaves no two equal elements in adjacent positions. -/
theorem itertoolsDedup_chain_ne [DecidableEq α] (l : List α) :
    List.Chain' (fun a b => a ≠ b) (itertoolsDedup l) := by
  induction l with
  | nil => exact List.chain'_nil
  | cons x l ih =>
    cases l with
    | nil => simp [itertoolsDedup]
    | cons y rest =>
      rw [itertoolsDedup_cons_eq_ite]
      by_cases h : x = y
      · simpa [h] using ih
      · rw [if_neg h]
        obtain ⟨t, ht⟩ := itertoolsDedup_head_cons y rest
        rw [ht] at ih ⊢
        exact List.chain'_cons.mpr ⟨h, ih⟩

/-- Every element surviving itertools dedup was in the input. -/
theorem mem_itertoolsDedup [DecidableEq α] {x : α} {l : List α}
    (h : x ∈ itertoolsDedup l) : x ∈ l := by
  induction l with
  | nil => simp [itertoolsDedup] at h
  | cons a l ih =>
    cases l with
    | nil => simpa [itertoolsDedup] using h
    | cons b rest =>
      rw [itertoolsDedup_cons_eq_ite] at h
      by_cases hab : a = b
      · rw [if_pos hab] at h
        exact List.mem_cons_of_mem a (ih h)
      · rw [if_neg hab] at h
        rcases List.mem_cons.mp h with h1 | h2
        · exact h1 ▸ List.mem_cons_self a _
        · exact List.mem_cons_of_mem a (ih h2)

/-- C5 counterexample: requesting fingerprints 1, 3, 2 in a graph with edges
(1,2) and (3,4) yields the edge (1,2) twice, because itertools dedup only
collapses consecutive duplicates: the result is not duplicate-free. -/
theorem adjacencies_duplicate_counterexample :
    adjacencies rgEx [1, 3, 2] = [adjEx1, adjEx2, adjEx1]
    ∧ ¬ (adjacencies rgEx [1, 3, 2]).Nodup := by
  constructor
  · decide
  · decide

/-- C5 (amended): the adjacencies query deduplicates only consecutive
duplicates: no two equal descriptors are ever adjacent in the result (so
one adjacency incident to consecutively requested fingerprints appears
once), but the same descriptor may recur non-adjacently; and every
returned edge has both endpoints marked is_relay in the relay graph. -/
theorem adjacencies_consecutive_dedup_and_relay_only
    (rg : RelayGraphM) (fps : List Fingerprint) :
    List.Chain' (fun a b => a ≠ b) (adjacencies rg fps)
    ∧ ∀ adj ∈ adjacencies rg fps, relayRelay rg adj = true := by
  constructor
  · exact itertoolsDedup_chain_ne _
  · intro adj h
    have h2 := mem_itertoolsDedup h
    rw [List.mem_flatMap] at h2
    obtain ⟨fp, _, hmem⟩ := h2
    exact (List.mem_filter.mp hmem).2

/-- C5 witness: the amended theorem applied to the concrete graph, extracting
the relay-to-relay fact for a returned edge. -/
theorem adjacencies_relay_only_witness :
    relayRelay rgEx adjEx1 = true :=
  (adjacencies_consecutive_dedup_and_relay_only rgEx [1, 3, 2]).2 adjEx1 (by decide)

/-- C3: sign_adjacency returns Some only when left < right, right is our own
global-identity fingerprint, and left is a known neighbor; in that case
the returned descriptor is the input completed with our right_sig, and the
relay-graph insert succeeded.  On any failed check, and on insert failure,
it returns None. -/
theorem signAdjacency_spec (ctx : SignCtx) (inc : AdjacencyDescriptor) :
    (∀ d, signAdjacency ctx inc = some d →
        (inc.left < inc.right ∧ inc.right = ctx.myFingerprint ∧ inc.left ∈ ctx.neighbors)
        ∧ d = { inc with right_sig := ctx.signAdj inc }
        ∧ (ctx.insertAdjacency d).isSome = true)
    ∧ (¬ (inc.left < inc.right ∧ inc.right = ctx.myFingerprint ∧ inc.left ∈ ctx.neighbors) →
        signAdjacency ctx inc = none)
    ∧ (ctx.insertAdjacency { inc with right_sig := ctx.signAdj inc } = none →
        signAdjacency ctx inc = none) := by
  by_cases h : adjacencyChecks ctx inc
  · refine ⟨?_, fun hc => absurd h hc, ?_⟩
    · intro d hd
      unfold signAdjacency at hd
      rw [if_pos h] at hd
      cases hins : ctx.insertAdjacency { inc with right_sig := ctx.signAdj inc } with
      | none => rw [hins] at hd; cases hd
      | some u =>
        rw [hins] at hd
        have hde : { inc with right_sig := ctx.signAdj inc } = d := by
          injection hd
        exact ⟨h, hde.symm, by rw [← hde, hins]; rfl⟩
    · intro hins
      unfold signAdjacency
      rw [if_pos h, hins]
  · have hnone : signAdjacency ctx inc = none := by
      unfold signAdjacency
      rw [if_neg h]
    exact ⟨fun d hd => absurd (hnone ▸ hd) (by simp), fun _ => hnone, fun _ => hnone⟩

/-- C3 witness: the theorem applied to a concrete context (we are fingerprint
2 with neighbor 1) and the incomplete adjacency (1,2), which the service
signs. -/
theorem signAdjacency_spec_witness :
    signAdjacency signCtxEx adjEx1
        = some { left := 1, right := 2, left_sig := 0, right_sig := 9 }
    ∧ (adjEx1.left < adjEx1.right ∧ adjEx1.right = signCtxEx.myFingerprint
        ∧ adjEx1.left ∈ signCtxEx.neighbors) :=
  ⟨by decide,
    ((signAdjacency_spec signCtxEx adjEx1).1
      { left := 1, right := 2, left_sig := 0, right_sig := 9 } (by decide)).1⟩

/-- C7: a decoded ClientHs from remote endpoint E makes recv_task create and
insert a fresh CryptSession for E (when the fallible constructor
succeeds), replacing any existing session: afterwards the cache holds
exactly one session for E, the newly created one. -/
theorem clientHs_replaces_session
    (mkSession : Endpoint → Nat → Option CryptSession)
    (cache : SessionCache) (remote : Endpoint) (hs : Nat) (s : CryptSession)
    (h : mkSession remote hs = some s) :
    recvStep mkSession cache remote (HavenMsg.clientHs hs)
        = Except.ok (cacheInsert cache remote s, RecvEffect.sessionCreated remote s)
    ∧ cacheGet (cacheInsert cache remote s) remote = some s
    ∧ (cacheInsert cache remote s).filter (fun p => decide (p.1 = remote)) = [(remote, s)] := by
  refine ⟨?_, ?_, ?_⟩
  · simp only [recvStep]
    rw [h]
  · unfold cacheGet cacheInsert
    rw [List.find?_cons_of_pos _ (by simp)]
    rfl
  · unfold cacheInsert
    rw [List.filter_cons_of_pos (by simp), List.filter_filter]
    have : ∀ p ∈ cache, ¬ ((decide (p.1 = remote) && decide (p.1 ≠ remote)) = true) := by
      intro p _ hp
      simp at hp
    rw [List.filter_eq_nil_iff.mpr this]

/-- C7 witness: the theorem applied with a constructor that yields session 7,
over a cache already holding a session for the remote endpoint. -/
theorem clientHs_replaces_session_witness :
    (fun (_ : Endpoint) (_ : Nat) => some 7) (0, 0) 1 = some 7
    ∧ recvStep (fun _ _ => some 7) [((0, 0), 3)] (0, 0) (HavenMsg.clientHs 1)
        = Except.ok (cacheInsert [((0, 0), 3)] (0, 0) 7, RecvEffect.sessionCreated (0, 0) 7) :=
  ⟨rfl, (clientHs_replaces_session (fun _ _ => some 7) [((0, 0), 3)] (0, 0) 1 7 rfl).1⟩

/-- C9: recv_from never surfaces an error: the socket constructed by bind
holds a sending half of the decrypted-message channel (so does its recv
task), and as long as one sender is held the channel can never report
closed, so the expect inside recv_from cannot fire; every value returned
is Ok, liveness is preserved by a successful recv_from, by message
delivery, by sender cloning, and by dropping an extra sender clone. -/
theorem recvFrom_never_panics :
    HavenSocketM.bind.alive
    ∧ ∀ s : HavenSocketM, s.alive →
        s.recvFrom ≠ RecvFromResult.panicked
        ∧ (∀ m s2, s.recvFrom = RecvFromResult.ok m s2 → s2.alive)
        ∧ (∀ m, (s.deliver m).alive)
        ∧ s.cloneSender.alive
        ∧ (2 ≤ s.recvIncomingDecrypted.senders → s.dropExtraSender.alive) := by
  refine ⟨by simp [HavenSocketM.bind, HavenSocketM.alive], ?_⟩
  intro s hs
  have hs0 : s.recvIncomingDecrypted.senders ≠ 0 := by
    unfold HavenSocketM.alive at hs
    omega
  refine ⟨?_, ?_, ?_, ?_, ?_⟩
  · unfold HavenSocketM.recvFrom
    cases hr : s.recvIncomingDecrypted.recv with
    | msg m c => simp
    | pending => simp
    | closed =>
      exfalso
      unfold RecvChannel.recv at hr
      cases hq : s.recvIncomingDecrypted.queue with
      | cons x t => rw [hq] at hr; cases hr
      | nil => rw [hq] at hr; rw [if_neg hs0] at hr; cases hr
  · intro m s2 hok
    unfold HavenSocketM.recvFrom at hok
    cases hr : s.recvIncomingDecrypted.recv with
    | msg a c =>
      rw [hr] at hok
      have hsnd := RecvChannel.recv_msg_senders hr
      injection hok with h1 h2
      rw [← h2]
      unfold HavenSocketM.alive
      simpa [hsnd] using hs
    | pending => rw [hr] at hok; cases hok
    | closed => rw [hr] at hok; cases hok
  · intro m
    have hsame : (s.deliver m).recvIncomingDecrypted.senders
        = s.recvIncomingDecrypted.senders := by
      simp only [HavenSocketM.deliver]
      split <;> rfl
    unfold HavenSocketM.alive at hs ⊢
    omega
  · unfold HavenSocketM.alive at hs ⊢
    have hone : s.cloneSender.recvIncomingDecrypted.senders
        = s.recvIncomingDecrypted.senders + 1 := rfl
    omega
  · intro h2
    unfold HavenSocketM.alive
    have hone : s.dropExtraSender.recvIncomingDecrypted.senders
        = s.recvIncomingDecrypted.senders - 1 := rfl
    omega

/-- C9 witness: the theorem applied to the socket state produced by bind. -/
theorem recvFrom_never_panics_witness :
    HavenSocketM.bind.alive
    ∧ HavenSocketM.bind.recvFrom ≠ RecvFromResult.panicked :=
  ⟨recvFrom_never_panics.1,
    (recvFrom_never_panics.2 HavenSocketM.bind recvFrom_never_panics.1).1⟩

/-- Reading back the id just inserted into the socket map yields the new
socket. -/
theorem socketsGet_insert_self (m : List (String × SocketM)) (k : String) (v : SocketM) :
    socketsGet (socketsInsert m k v) k = some v := by
  unfold socketsGet socketsInsert
  rw [List.find?_cons_of_pos _ (by simp)]
  rfl

/-- Inserting under one id leaves lookups of every other id unchanged. -/
theorem socketsGet_insert_ne (m : List (String × SocketM)) (k k2 : String) (v : SocketM)
    (h : k2 ≠ k) : socketsGet (socketsInsert m k v) k2 = socketsGet m k2 := by
  unfold socketsGet socketsInsert
  rw [List.find?_cons_of_neg _ (by simp [Ne.symm h])]
  congr 1
  induction m with
  | nil => rfl
  | cons a t ih =>
    by_cases ha : a.1 = k
    · rw [List.filter_cons_of_neg (by simp [ha]),
        List.find?_cons_of_neg _ (by simp [ha, Ne.symm h]), ih]
    · rw [List.filter_cons_of_pos (by simp [ha])]
      by_cases hk2 : a.1 = k2
      · rw [List.find?_cons_of_pos _ (by simp [hk2]), List.find?_cons_of_pos _ (by simp [hk2])]
      · rw [List.find?_cons_of_neg _ (by simp [hk2]), List.find?_cons_of_neg _ (by simp [hk2]),
          ih]

/-- Under the memoization invariant, AnonIdentities::get returns exactly the
derived identity for the label. -/
theorem anonIdentitiesGet_val (derive : String → IdentitySecret)
    (cache : List (String × IdentitySecret)) (label : String)
    (hwf : anonCacheWF derive cache) :
    (anonIdentitiesGet derive cache label).1 = derive label := by
  unfold anonIdentitiesGet
  cases hf : cache.find? (fun p => decide (p.1 = label)) with
  | none => rfl
  | some p =>
    have hmem := List.mem_of_find?_eq_some hf
    have hp : p.1 = label := by simpa using List.find?_some hf
    simp only
    rw [hwf p hmem, hp]

/-- C8: bind_n2r and bind_haven called with anon_id = None store a socket
bound under the global identity; a (derived) anonymous identity is used
exactly when an anon_id label is supplied. -/
theorem bind_identity_resolution
    (derive : String → IdentitySecret) (globalId : IdentitySecret) (st : ControlState)
    (socketId : String) (dock : Option Nat) (rp : Option Fingerprint) :
    socketsGet (bindN2r derive globalId st socketId none dock).sockets socketId
        = some { isHaven := false, identity := globalId, dock := dock, rendezvous := none }
    ∧ socketsGet (bindHaven derive globalId st socketId none dock rp).sockets socketId
        = some { isHaven := true, identity := globalId, dock := dock, rendezvous := rp }
    ∧ (anonCacheWF derive st.anonIdentities → ∀ label,
        (socketsGet (bindN2r derive globalId st socketId (some label) dock).sockets
            socketId).map SocketM.identity = some (derive label)
        ∧ (socketsGet (bindHaven derive globalId st socketId (some label) dock rp).sockets
            socketId).map SocketM.identity = some (derive label)) := by
  refine ⟨?_, ?_, ?_⟩
  · simp only [bindN2r]
    exact socketsGet_insert_self _ _ _
  · simp only [bindHaven]
    exact socketsGet_insert_self _ _ _
  · intro hwf label
    constructor
    · simp only [bindN2r]
      rw [socketsGet_insert_self, anonIdentitiesGet_val derive _ _ hwf]
      rfl
    · simp only [bindHaven]
      rw [socketsGet_insert_self, anonIdentitiesGet_val derive _ _ hwf]
      rfl

/-- C8 witness: the theorem applied to a concrete state with an empty anon
cache, showing the label-derived identity is used when a label is given. -/
theorem bind_identity_resolution_witness :
    anonCacheWF (fun _ => 42) (ControlState.mk [] []).anonIdentities
    ∧ (socketsGet (bindN2r (fun _ => 42) 7 (ControlState.mk [] []) "s" (some "lbl")
          none).sockets "s").map SocketM.identity = some 42 :=
  ⟨fun p hp => absurd hp (List.not_mem_nil p),
    ((bind_identity_resolution (fun _ => 42) 7 (ControlState.mk [] []) "s" none none).2.2
      (fun p hp => absurd hp (List.not_mem_nil p)) "lbl").1⟩

/-- C10: binding a socket_id that is already bound silently replaces the
previously stored socket: the operation returns no error and afterwards
the id maps to exactly the freshly built socket (carrying the resolved
identity, the requested dock and rendezvous point), while every other
socket_id keeps exactly its previous binding, for bind_n2r and bind_haven
alike. -/
theorem bind_overwrites_and_frames
    (derive : String → IdentitySecret) (globalId : IdentitySecret) (st : ControlState)
    (socketId : String) (anonId : Option String) (dock : Option Nat) (rp : Option Fingerprint) :
    (socketsGet (bindN2r derive globalId st socketId anonId dock).sockets socketId
        = some { isHaven := false,
                 identity := (anonId.map (fun label =>
                   (anonIdentitiesGet derive st.anonIdentities label).1)).getD globalId,
                 dock := dock, rendezvous := none }
      ∧ ∀ other, other ≠ socketId →
          socketsGet (bindN2r derive globalId st socketId anonId dock).sockets other
            = socketsGet st.sockets other)
    ∧ (socketsGet (bindHaven derive globalId st socketId anonId dock rp).sockets socketId
        = some { isHaven := true,
                 identity := (anonId.map (fun label =>
                   (anonIdentitiesGet derive st.anonIdentities label).1)).getD globalId,
                 dock := dock, rendezvous := rp }
      ∧ ∀ other, other ≠ socketId →
          socketsGet (bindHaven derive globalId st socketId anonId dock rp).sockets other
            = socketsGet st.sockets other) := by
  constructor
  · constructor
    · cases anonId with
      | none =>
        simp only [Option.map_none', Option.getD_none, bindN2r]
        exact socketsGet_insert_self _ _ _
      | some label =>
        simp only [Option.map_some', Option.getD_some, bindN2r]
        exact socketsGet_insert_self _ _ _
    · intro other hne
      simp only [bindN2r]
      exact socketsGet_insert_ne _ _ _ _ hne
  · constructor
    · cases anonId with
      | none =>
        simp only [Option.map_none', Option.getD_none, bindHaven]
        exact socketsGet_insert_self _ _ _
      | some label =>
        simp only [Option.map_some', Option.getD_some, bindHaven]
        exact socketsGet_insert_self _ _ _
    · intro other hne
      simp only [bindHaven]
      exact socketsGet_insert_ne _ _ _ _ hne

/-- C10 witness: rebinding id b, already bound to a haven socket with
identity 9, stores the fresh n2r socket with the global identity 5 in its
place, and leaves the binding of id a untouched. -/
theorem bind_overwrites_and_frames_witness :
    ("a" : String) ≠ "b"
    ∧ socketsGet (bindN2r (fun _ => 0) 5
          (ControlState.mk
            [("a", SocketM.mk false 0 none none), ("b", SocketM.mk true 9 none none)] [])
          "b" none none).sockets "b"
        = some (SocketM.mk false 5 none none)
    ∧ socketsGet (bindN2r (fun _ => 0) 5
          (ControlState.mk
            [("a", SocketM.mk false 0 none none), ("b", SocketM.mk true 9 none none)] [])
          "b" none none).sockets "a"
        = socketsGet
            [("a", SocketM.mk false 0 none none), ("b", SocketM.mk true 9 none none)] "a" :=
  ⟨by decide,
    (bind_overwrites_and_frames (fun _ => 0) 5
        (ControlState.mk
          [("a", SocketM.mk false 0 none none), ("b", SocketM.mk true 9 none none)] [])
        "b" none none none).1.1,
    (bind_overwrites_and_frames (fun _ => 0) 5
        (ControlState.mk
          [("a", SocketM.mk false 0 none none), ("b", SocketM.mk true 9 none none)] [])
        "b" none none none).1.2 "a" (by decide)⟩

/-- takeLast keeps a list that is already short enough. -/
theorem takeLast_of_length_le (n : Nat) (l : List α) (h : l.length ≤ n) :
    takeLast n l = l := by
  unfold takeLast
  rw [Nat.sub_eq_zero_of_le h, List.drop_zero]

/-- A leading element falls out of takeLast when enough elements follow. -/
theorem takeLast_cons_of_le (n : Nat) (a : α) (l : List α) (h : n ≤ l.length) :
    takeLast n (a :: l) = takeLast n l := by
  unfold takeLast
  have hstep : (a :: l).length - n = (l.length - n) + 1 := by
    simp only [List.length_cons]
    omega
  rw [hstep, List.drop_succ_cons]

/-- takeLast ignores any prefix when the suffix is long enough. -/
theorem takeLast_append_of_le (n : Nat) (l1 l2 : List α) (h : n ≤ l2.length) :
    takeLast n (l1 ++ l2) = takeLast n l2 := by
  induction l1 with
  | nil => rfl
  | cons a t ih =>
    rw [List.cons_append,
      takeLast_cons_of_le n a (t ++ l2) (by rw [List.length_append]; omega), ih]

/-- takeLast n of a list of at least n elements has exactly n elements. -/
theorem takeLast_length_of_le (n : Nat) (l : List α) (h : n ≤ l.length) :
    (takeLast n l).length = n := by
  unfold takeLast
  rw [List.length_drop]
  omega

/-- One deque insert keeps exactly the last capacity elements of the extended
contents, preserves the length bound, and keeps the capacity. -/
theorem ReplyBlockDeque.insert_deque (d : ReplyBlockDeque α) (x : α)
    (hwf : d.deque.length ≤ d.capacity) (hcap : 1 ≤ d.capacity) :
    (d.insert x).deque = takeLast d.capacity (d.deque ++ [x])
    ∧ (d.insert x).deque.length ≤ d.capacity
    ∧ (d.insert x).capacity = d.capacity := by
  have hins : (d.insert x).deque
      = (if d.deque.length = d.capacity then d.deque.tail else d.deque) ++ [x] := rfl
  by_cases he : d.deque.length = d.capacity
  · cases hq : d.deque with
    | nil =>
      exfalso
      rw [hq] at he
      simp at he
      omega
    | cons y t =>
      have hlt : d.deque.length = t.length + 1 := by rw [hq]; rfl
      have h1 : (d.insert x).deque = t ++ [x] := by
        rw [hins, if_pos he, hq]
        rfl
      refine ⟨?_, ?_, rfl⟩
      · rw [h1, List.cons_append,
          takeLast_cons_of_le d.capacity y (t ++ [x])
            (by rw [List.length_append, List.length_singleton]; omega),
          takeLast_of_length_le _ _
            (by rw [List.length_append, List.length_singleton]; omega)]
      · rw [h1, List.length_append, List.length_singleton]
        omega
  · have h1 : (d.insert x).deque = d.deque ++ [x] := by rw [hins, if_neg he]
    have hlt : d.deque.length < d.capacity := lt_of_le_of_ne hwf he
    refine ⟨?_, ?_, rfl⟩
    · rw [h1, takeLast_of_length_le]
      rw [List.length_append, List.length_singleton]
      omega
    · rw [h1, List.length_append, List.length_singleton]
      omega

/-- Sequential insertion keeps exactly the last capacity elements of the
extended contents, the length bound, and the capacity. -/
theorem ReplyBlockDeque.insertMany_deque (d : ReplyBlockDeque α) (xs : List α)
    (hwf : d.deque.length ≤ d.capacity) (hcap : 1 ≤ d.capacity) :
    (d.insertMany xs).deque = takeLast d.capacity (d.deque ++ xs)
    ∧ (d.insertMany xs).deque.length ≤ d.capacity
    ∧ (d.insertMany xs).capacity = d.capacity := by
  induction xs generalizing d with
  | nil =>
    refine ⟨?_, hwf, rfl⟩
    rw [List.append_nil, takeLast_of_length_le _ _ hwf]
    rfl
  | cons x xs ih =>
    have hstep := ReplyBlockDeque.insert_deque d x hwf hcap
    obtain ⟨ih1, ih2, ih3⟩ := ih (d.insert x) hstep.2.1 (by rw [hstep.2.2]; exact hcap)
    have hm : d.insertMany (x :: xs) = (d.insert x).insertMany xs := rfl
    rw [hm]
    refine ⟨?_, ih2, by rw [ih3, hstep.2.2]⟩
    rw [ih1, hstep.2.2]
    by_cases he : d.deque.length = d.capacity
    · cases hq : d.deque with
      | nil =>
        exfalso
        rw [hq] at he
        simp at he
        omega
      | cons y t =>
        have hlt : t.length + 1 = d.capacity := by
          rw [← he, hq]
          rfl
        have h1 : (d.insert x).deque = t ++ [x] := by
          show (if d.deque.length = d.capacity then d.deque.tail else d.deque) ++ [x] = t ++ [x]
          rw [if_pos he, hq]
          rfl
        rw [h1, List.cons_append,
          takeLast_cons_of_le d.capacity y (t ++ x :: xs)
            (by rw [List.length_append]; simp only [List.length_cons]; omega),
          List.append_assoc]
        rfl
    · have h1 : (d.insert x).deque = d.deque ++ [x] := by
        show (if d.deque.length = d.capacity then d.deque.tail else d.deque) ++ [x] = _
        rw [if_neg he]
      rw [h1, List.append_assoc]
      rfl

/-- The key just promoted to the front of the LRU entry list is found. -/
theorem lruLookup_cons_self (items : List (Fingerprint × β)) (fp : Fingerprint) (v : β) :
    lruLookup ((fp, v) :: items) fp = some v := by
  unfold lruLookup
  rw [List.find?_cons_of_pos _ (by simp)]
  rfl

/-- A successful LRU lookup comes from an entry of the list. -/
theorem lruLookup_some_mem {items : List (Fingerprint × β)} {fp : Fingerprint} {v : β}
    (h : lruLookup items fp = some v) : (fp, v) ∈ items := by
  unfold lruLookup at h
  obtain ⟨p, hp, hv⟩ := Option.map_eq_some'.mp h
  have hmem := List.mem_of_find?_eq_some hp
  have hfp : p.1 = fp := by simpa using List.find?_some hp
  obtain ⟨p1, p2⟩ := p
  simp only at hfp hv
  rw [← hfp, ← hv]
  exact hmem

/-- Store insert on a present fingerprint: the updated deque moves to the
front of the LRU list. -/
theorem ReplyBlockStore.insert_items_of_some (s : ReplyBlockStore α) (fp : Fingerprint)
    (rb : α) (d : ReplyBlockDeque α) (h : lruLookup s.items fp = some d) :
    (s.insert fp rb).items
      = (fp, d.insert rb) :: s.items.eraseP (fun p => decide (p.1 = fp)) := by
  unfold ReplyBlockStore.insert
  rw [h]

/-- Store insert on an absent fingerprint: a fresh deque of capacity 1000 is
put at the front (evicting the LRU victim if the cache is full). -/
theorem ReplyBlockStore.insert_items_of_none (s : ReplyBlockStore α) (fp : Fingerprint)
    (rb : α) (h : lruLookup s.items fp = none) :
    (s.insert fp rb).items
      = (fp, (ReplyBlockDeque.new 1000).insert rb)
          :: (if s.items.length = s.cap then s.items.dropLast else s.items) := by
  unfold ReplyBlockStore.insert
  rw [h]

/-- Store get on a present fingerprint pops the back of its deque and
promotes it. -/
theorem ReplyBlockStore.get_of_some (s : ReplyBlockStore α) (fp : Fingerprint)
    (d : ReplyBlockDeque α) (h : lruLookup s.items fp = some d) :
    s.get fp = (d.pop.1,
      { s with items := (fp, d.pop.2) :: s.items.eraseP (fun p => decide (p.1 = fp)) }) := by
  unfold ReplyBlockStore.get
  rw [h]

/-- Store get on an absent fingerprint returns none and changes nothing. -/
theorem ReplyBlockStore.get_of_none (s : ReplyBlockStore α) (fp : Fingerprint)
    (h : lruLookup s.items fp = none) :
    s.get fp = (none, s) := by
  unfold ReplyBlockStore.get
  rw [h]

/-- Repeated insertion for a present fingerprint accumulates in its deque. -/
theorem ReplyBlockStore.insertList_lookup (fp : Fingerprint) (xs : List α)
    (s : ReplyBlockStore α) (d : ReplyBlockDeque α) (h : lruLookup s.items fp = some d) :
    lruLookup (s.insertList fp xs).items fp = some (d.insertMany xs) := by
  induction xs generalizing s d with
  | nil => exact h
  | cons x xs ih =>
    have hnext : lruLookup (s.insert fp x).items fp = some (d.insert x) := by
      rw [ReplyBlockStore.insert_items_of_some s fp x d h]
      exact lruLookup_cons_self _ _ _
    exact ih (s.insert fp x) (d.insert x) hnext

/-- Unfolding equation for getN. -/
theorem ReplyBlockStore.getN_succ (s : ReplyBlockStore α) (fp : Fingerprint) (n : Nat) :
    s.getN fp (n + 1)
      = ((s.get fp).1 :: ((s.get fp).2.getN fp n).1, ((s.get fp).2.getN fp n).2) := rfl

/-- Unfolding equation for popN. -/
theorem ReplyBlockDeque.popN_succ (d : ReplyBlockDeque α) (n : Nat) :
    d.popN (n + 1) = (d.pop.1 :: (d.pop.2.popN n).1, (d.pop.2.popN n).2) := rfl

/-- Repeated store gets on a present fingerprint behave as repeated deque
pops, and the popped deque stays resident. -/
theorem ReplyBlockStore.getN_of_some (fp : Fingerprint) (n : Nat)
    (s : ReplyBlockStore α) (d : ReplyBlockDeque α) (h : lruLookup s.items fp = some d) :
    (s.getN fp n).1 = (d.popN n).1
    ∧ lruLookup ((s.getN fp n).2).items fp = some (d.popN n).2 := by
  induction n generalizing s d with
  | zero => exact ⟨rfl, h⟩
  | succ k ih =>
    have hget := ReplyBlockStore.get_of_some s fp d h
    have hlook : lruLookup ((s.get fp).2).items fp = some d.pop.2 := by
      rw [hget]
      exact lruLookup_cons_self _ _ _
    obtain ⟨ih1, ih2⟩ := ih ((s.get fp).2) d.pop.2 hlook
    rw [ReplyBlockStore.getN_succ, ReplyBlockDeque.popN_succ]
    constructor
    · simp only
      rw [ih1, hget]
    · simp only
      exact ih2

/-- Fully draining a deque by pops yields its contents newest-first, leaving
it empty. -/
theorem ReplyBlockDeque.popN_drain (L : List α) (cap : Nat) :
    (ReplyBlockDeque.mk L cap).popN L.length
      = (L.reverse.map some, ReplyBlockDeque.mk [] cap) := by
  induction L using List.reverseRecOn with
  | nil => rfl
  | append_singleton t a ih =>
    have hpop : (ReplyBlockDeque.mk (t ++ [a]) cap).pop
        = (some a, ReplyBlockDeque.mk t cap) := by
      unfold ReplyBlockDeque.pop
      rw [List.getLast?_concat]
      simp [List.dropLast_concat]
    have hlen : (t ++ [a]).length = t.length + 1 := by
      rw [List.length_append, List.length_singleton]
    rw [hlen, ReplyBlockDeque.popN_succ]
    simp only [hpop]
    rw [ih]
    simp [List.reverse_append]

/-- Two deques are equal once their contents and capacity agree. -/
theorem ReplyBlockDeque.eq_mk_of_fields (d : ReplyBlockDeque α) (L : List α) (c : Nat)
    (h1 : d.deque = L) (h2 : d.capacity = c) : d = ReplyBlockDeque.mk L c := by
  cases d
  simp only at h1 h2
  rw [h1, h2]

set_option maxRecDepth 4096 in
/-- C2: inserting more than 1000 reply blocks for a fingerprint (with no
intervening get and no eviction of that fingerprint, which insertion alone
never causes) retains exactly the last 1000 inserted blocks; subsequent
gets return them newest-first (LIFO), then report none once drained; and
get on an absent fingerprint reports none. -/
theorem replyBlockStore_retains_last_1000_lifo (s : ReplyBlockStore α)
    (fp : Fingerprint) (xs : List α) (hwf : s.WF) (hlen : 1000 < xs.length) :
    (s.insertList fp xs).lookupDeque fp = some (takeLast 1000 xs)
    ∧ ((s.insertList fp xs).getN fp 1000).1 = (takeLast 1000 xs).reverse.map some
    ∧ ((((s.insertList fp xs).getN fp 1000).2).get fp).1 = none
    ∧ ∀ t : ReplyBlockStore α, t.lookupDeque fp = none → (t.get fp).1 = none := by
  have hle : 1000 ≤ xs.length := le_of_lt hlen
  have hfinal : lruLookup (s.insertList fp xs).items fp
      = some (ReplyBlockDeque.mk (takeLast 1000 xs) 1000) := by
    cases h0 : lruLookup s.items fp with
    | some d0 =>
      have hmem := lruLookup_some_mem h0
      have hcap0 : d0.capacity = 1000 := (hwf (fp, d0) hmem).1
      have hlen0 : d0.deque.length ≤ 1000 := (hwf (fp, d0) hmem).2
      have hins := ReplyBlockDeque.insertMany_deque d0 xs (by omega) (by omega)
      have h1 : (d0.insertMany xs).deque = takeLast 1000 xs := by
        rw [hins.1, hcap0, takeLast_append_of_le _ _ _ hle]
      have h2 : (d0.insertMany xs).capacity = 1000 := by rw [hins.2.2, hcap0]
      have heq := ReplyBlockDeque.eq_mk_of_fields (d0.insertMany xs) _ _ h1 h2
      rw [ReplyBlockStore.insertList_lookup fp xs s d0 h0, heq]
    | none =>
      cases xs with
      | nil => simp at hlen
      | cons x xs2 =>
        have h1 : lruLookup (s.insert fp x).items fp
            = some ((ReplyBlockDeque.new 1000).insert x) := by
          rw [ReplyBlockStore.insert_items_of_none s fp x h0]
          exact lruLookup_cons_self _ _ _
        have hlook := ReplyBlockStore.insertList_lookup fp xs2 (s.insert fp x)
          ((ReplyBlockDeque.new 1000).insert x) h1
        have hm : s.insertList fp (x :: xs2) = (s.insert fp x).insertList fp xs2 := rfl
        have hia : ((ReplyBlockDeque.new 1000).insert x).insertMany xs2
            = (ReplyBlockDeque.new 1000).insertMany (x :: xs2) := rfl
        have hins := ReplyBlockDeque.insertMany_deque
          (ReplyBlockDeque.new 1000 : ReplyBlockDeque α) (x :: xs2)
          (by simp [ReplyBlockDeque.new]) (by norm_num [ReplyBlockDeque.new])
        have h1' : ((ReplyBlockDeque.new 1000 : ReplyBlockDeque α).insertMany (x :: xs2)).deque
            = takeLast 1000 (x :: xs2) := by
          rw [hins.1]
          rfl
        have h2' : ((ReplyBlockDeque.new 1000 : ReplyBlockDeque α).insertMany
            (x :: xs2)).capacity = 1000 := hins.2.2
        have heq : ((ReplyBlockDeque.new 1000 : ReplyBlockDeque α).insert x).insertMany xs2
            = ReplyBlockDeque.mk (takeLast 1000 (x :: xs2)) 1000 := by
          rw [hia]
          exact ReplyBlockDeque.eq_mk_of_fields _ _ _ h1' h2'
        rw [hm, hlook, heq]
  have hlen1000 : (takeLast 1000 xs).length = 1000 := takeLast_length_of_le _ _ hle
  have hd := ReplyBlockDeque.popN_drain (takeLast 1000 xs) 1000
  rw [hlen1000] at hd
  obtain ⟨hg1, hg2⟩ := ReplyBlockStore.getN_of_some fp 1000 _ _ hfinal
  refine ⟨?_, ?_, ?_, ?_⟩
  · unfold ReplyBlockStore.lookupDeque
    rw [hfinal]
    rfl
  · rw [hg1, hd]
  · rw [hd] at hg2
    rw [ReplyBlockStore.get_of_some _ fp _ hg2]
    rfl
  · intro t ht
    have hnone : lruLookup t.items fp = none := by
      unfold ReplyBlockStore.lookupDeque at ht
      exact Option.map_eq_none'.mp ht
    rw [ReplyBlockStore.get_of_none t fp hnone]

/-- C2 witness: the theorem applied to the empty store of capacity 5 and the
1001 blocks 0..1000. -/
theorem replyBlockStore_retains_last_1000_lifo_witness :
    (ReplyBlockStore.new 5 : ReplyBlockStore Nat).WF
    ∧ 1000 < (List.range 1001).length
    ∧ ((ReplyBlockStore.new 5 : ReplyBlockStore Nat).insertList 0
          (List.range 1001)).lookupDeque 0 = some (takeLast 1000 (List.range 1001)) :=
  ⟨fun p hp => absurd hp (List.not_mem_nil p), by simp,
    (replyBlockStore_retains_last_1000_lifo (ReplyBlockStore.new 5) 0 (List.range 1001)
      (fun p hp => absurd hp (List.not_mem_nil p)) (by simp)).1⟩
